import Mathlib

/-!
Verification of the BEST two-group Bayesian estimation module
(`src/best/__init__.py`): the model builder `make_model`, the
highest-density-interval estimator `hdi_of_mcmc`, and the posterior
summarizer `calculate_sample_statistics`.

Conventions of the shallow embedding:
- Python/numpy floating-point numbers are idealized as exact rationals
  (`ℚ`); `np.std` involves a square root and therefore lands in `ℝ`.
- Python exceptions are modelled by `Except BestError`; each `BestError`
  constructor documents the concrete Python failure it stands for.
- `scipy.stats.gaussian_kde` is external library code: its construction
  guard (it raises when the data covariance matrix is singular or
  undefined) is modelled explicitly, while the fitted estimator's
  bandwidth factor and density evaluation, which involve transcendental
  arithmetic, are an abstract parameter (`KDEOracle`).
-/

set_option maxRecDepth 8000

namespace Best

/-- Failure kinds of the module.  Each constructor stands for a concrete
Python exception of the source (or of a library call it makes); the
spec's error taxonomy names are noted where they correspond. -/
inductive BestError where
  /-- The `assert` statements of `make_model` (`len(data) == 2`,
  `y1.ndim == 1`, `y2.ndim == 1`); the spec calls this kind
  `InputShapeError`. -/
  | inputShapeError
  /-- The `assert len(sample_vec), 'need points to find HDI'` guard of
  `hdi_of_mcmc`; the spec calls this kind `EmptySampleError`. -/
  | emptySampleError
  /-- numpy's `ValueError`, raised when `np.argmin` is applied to an
  empty array (or when the two slices' shapes cannot broadcast). -/
  | valueError
  /-- The error `scipy.stats.gaussian_kde` raises during construction
  when the data covariance matrix is singular (all points identical) or
  undefined (fewer than two points). -/
  | linAlgError
  deriving DecidableEq

/-- `np.sort`: the ascending sort of the samples.  For values in a linear
order the ascending sorted permutation is unique, so any correct sort
models `np.sort`; `insertionSort` is used for its Mathlib lemmas. -/
def np_sort (v : List ℚ) : List ℚ := v.insertionSort (· ≤ ·)

/-- `np.mean`: the arithmetic mean.  (`np.mean` of an empty array is
`nan` with a warning, not an exception; here the junk value is `0`.
No claim evaluates the mean of an empty pooled array.) -/
def np_mean (v : List ℚ) : ℚ := v.sum / v.length

/-- The population variance (`ddof = 0`), which is the square of
`np.std`'s result. -/
def np_var (v : List ℚ) : ℚ := np_mean (v.map (fun x => (x - np_mean v) ^ 2))

/-- `np.std` with its default `ddof = 0`: the square root of the
population variance. -/
noncomputable def np_std (v : List ℚ) : ℝ := Real.sqrt (np_var v)

/-- The minimum value of a list (`0` for the empty list, which no caller
reaches). -/
def np_min (l : List ℚ) : ℚ :=
  match l with
  | [] => 0
  | x :: xs => xs.foldl min x

/-- The maximum value of a list (`0` for the empty list, which no caller
reaches). -/
def np_max (l : List ℚ) : ℚ :=
  match l with
  | [] => 0
  | x :: xs => xs.foldl max x

/-- `np.argmin`: the index of the minimum value; with several minima the
index of the first occurrence is returned (numpy's documented tie rule).
`np.argmin` of an empty array raises; callers guard, and the junk value
here is `0`. -/
def np_argmin : List ℚ → ℕ
  | [] => 0
  | [_] => 0
  | x :: y :: ys => if x ≤ np_min (y :: ys) then 0 else np_argmin (y :: ys) + 1

/-- `np.argmax`: the index of the maximum value, first occurrence on
ties (numpy's documented tie rule). -/
def np_argmax : List ℚ → ℕ
  | [] => 0
  | [_] => 0
  | x :: y :: ys => if np_max (y :: ys) ≤ x then 0 else np_argmax (y :: ys) + 1

/-- `np.linspace start stop num`: `num` equally spaced points from
`start` to `stop`, both endpoints included. -/
def np_linspace (start stop : ℚ) (num : ℕ) : List ℚ :=
  (List.range num).map (fun i : ℕ => start + (stop - start) * (i : ℚ) / ((num : ℚ) - 1))

/-- `hdi_of_mcmc(sample_vec, cred_mass)` of the source:

```
assert len(sample_vec), 'need points to find HDI'
sorted_pts = np.sort(sample_vec)
ci_idx_inc = int(np.floor(cred_mass * len(sorted_pts)))
n_cis = len(sorted_pts) - ci_idx_inc
ci_width = sorted_pts[ci_idx_inc:] - sorted_pts[:n_cis]
min_idx = np.argmin(ci_width)
hdi_min = sorted_pts[min_idx]
hdi_max = sorted_pts[min_idx + ci_idx_inc]
return hdi_min, hdi_max
```

The elementwise difference of the two slices is written as a map over
the start indices: entry `i` is `sorted_pts[i + ci_idx_inc] -
sorted_pts[i]`.  When `n_cis = 0` (credible mass `≥ 1`), `np.argmin`
receives an empty array (or the slice shapes cannot broadcast) and
Python raises `ValueError`.  A negative `cred_mass` (never passed: the
caller uses the default `0.95` and the spec restricts the mass to
`(0,1)`) would trigger Python's negative-slice semantics, which this
model does not cover: `Int.toNat` clamps the window size at `0`. -/
def hdi_of_mcmc (sample_vec : List ℚ) (cred_mass : ℚ) : Except BestError (ℚ × ℚ) :=
  if sample_vec.length = 0 then .error .emptySampleError else
  let sorted_pts := np_sort sample_vec
  let ci_idx_inc : ℕ := (⌊cred_mass * (sorted_pts.length : ℚ)⌋).toNat
  let n_cis : ℕ := sorted_pts.length - ci_idx_inc
  let ci_width : List ℚ :=
    (List.range n_cis).map (fun i => sorted_pts.getD (i + ci_idx_inc) 0 - sorted_pts.getD i 0)
  if n_cis = 0 then .error .valueError else
  let min_idx : ℕ := np_argmin ci_width
  .ok (sorted_pts.getD min_idx 0, sorted_pts.getD (min_idx + ci_idx_inc) 0)

/-- A fitted kernel-density estimator, as `calculate_sample_statistics`
consumes it: `covariance_factor()` (the automatic bandwidth factor) and
`evaluate` (the estimated density at a point). -/
structure KDEFit where
  covariance_factor : ℚ
  evaluate : ℚ → ℚ

/-- The fitted estimator `scipy.stats.gaussian_kde` would return for a
given non-degenerate dataset.  Its bandwidth factor (Scott's rule,
`n ** (-1/5)`) and its Gaussian-mixture density involve transcendental
arithmetic, so the fit is kept abstract: every theorem below holds for
an arbitrary oracle. -/
def KDEOracle : Type := List ℚ → KDEFit

/-- `scipy.stats.gaussian_kde(dataset)` for one-dimensional data:
construction computes the data covariance (the sample variance with
`ddof = 1`) and Cholesky-factors / inverts it, raising when that matrix
is singular (all points identical) or undefined (fewer than two points,
where `np.cov` yields `nan`).  Both failures are modelled as
`linAlgError`.  For `dataset.length ≥ 2` the sample variance vanishes
exactly when the population variance `np_var` does, which is the
condition used here. -/
def gaussian_kde (oracle : KDEOracle) (dataset : List ℚ) : Except BestError KDEFit :=
  if dataset.length < 2 ∨ np_var dataset = 0 then .error .linAlgError
  else .ok (oracle dataset)

/-- The record `calculate_sample_statistics` returns:
`{'hdi_min': ..., 'hdi_max': ..., 'mean': ..., 'mode': ...}`. -/
structure SampleStatistics where
  hdi_min : ℚ
  hdi_max : ℚ
  mean : ℚ
  mode : ℚ
  deriving DecidableEq

/-- `calculate_sample_statistics(sample_vec)` of the source (the spec's
`summarize`):

```
hdi_min, hdi_max = hdi_of_mcmc(sample_vec)      # default cred_mass=0.95
mean_val = np.mean(sample_vec)
kernel = scipy.stats.gaussian_kde(sample_vec)
bw = kernel.covariance_factor()
cut = 3 * bw
xlow = np.min(sample_vec) - cut * bw
xhigh = np.max(sample_vec) + cut * bw
n = 512
x = np.linspace(xlow, xhigh, n)
vals = kernel.evaluate(x)
max_idx = np.argmax(vals)
mode_val = x[max_idx]
return {'hdi_min': hdi_min, 'hdi_max': hdi_max, 'mean': mean_val, 'mode': mode_val}
```

Exceptions propagate in source order: the HDI's empty-sample assert
fires before the KDE is constructed. -/
def calculate_sample_statistics (oracle : KDEOracle) (sample_vec : List ℚ) :
    Except BestError SampleStatistics :=
  match hdi_of_mcmc sample_vec (95 / 100) with
  | .error e => .error e
  | .ok (hdi_min, hdi_max) =>
    let mean_val := np_mean sample_vec
    match gaussian_kde oracle sample_vec with
    | .error e => .error e
    | .ok kernel =>
      let bw := kernel.covariance_factor
      let cut := 3 * bw
      let xlow := np_min sample_vec - cut * bw
      let xhigh := np_max sample_vec + cut * bw
      let x := np_linspace xlow xhigh 512
      let vals := x.map kernel.evaluate
      let max_idx := np_argmax vals
      let mode_val := x.getD max_idx 0
      .ok ⟨hdi_min, hdi_max, mean_val, mode_val⟩

/-- A trivial concrete kernel-density oracle (bandwidth factor `1`,
density constantly `0`), used to instantiate theorems at concrete
inputs. -/
def constKDE : KDEOracle := fun _ => ⟨1, fun _ => 0⟩

/-- The result of `np.array` on one value of the input dict, as far as
`make_model` inspects it: either a one-dimensional array with the given
entries, or an array of some other dimensionality (a scalar, or a nested
list), whose entries `make_model` never reads because the `ndim`
assertion fails first. -/
inductive NpArr where
  | oneD (entries : List ℚ)
  | notOneD
  deriving DecidableEq

/-- A pymc3 prior distribution with its concrete hyperparameters (the
scale-dependent ones are reals because `np.std` is a square root). -/
inductive PriorDist where
  | normal (mu sd : ℝ)
  | uniform (lower upper : ℝ)
  | exponential (lam : ℝ)

/-- A symbolic parameter expression, as pymc3/theano builds them from
random variables: a named variable, a constant, a sum, or an integer
power.  `group1_std ** (-2)` is `.pow (.var "group1_std") (-2)`. -/
inductive ParamExpr where
  | var (name : String)
  | const (q : ℚ)
  | add (a b : ParamExpr)
  | pow (base : ParamExpr) (exp : ℤ)
  deriving DecidableEq

/-- One node of the emitted model specification: either a free latent
variable with its prior, or an observed Student-t likelihood node with
its three symbolic parameters (`nu`, `mu`, `lam`) and the observed data
array it is conditioned on. -/
inductive Node where
  | free (name : String) (dist : PriorDist)
  | observed (name : String) (nu mu lam : ParamExpr) (data : List ℚ)

/-- The model specification: the list of nodes `make_model` registers,
in registration order.  The unnamed precision transforms
`lambda_i = group_i_std ** (-2)` are theano expressions, not named
nodes, and appear as the `lam` parameters of the likelihood nodes,
exactly as in the source. -/
abbrev Model := List Node

/-- The body of `make_model` after the two group names have been sorted
(`name1 ≤ name2`) and the two values looked up:

```
y1 = np.array(data[name1]); y2 = np.array(data[name2])
assert y1.ndim == 1; assert y2.ndim == 1
y = np.concatenate((y1, y2))
mu_m = np.mean(y); mu_scale = np.std(y) * 1000
sigma_low = np.std(y) / 1000; sigma_high = np.std(y) * 1000
group1_mean = pm.Normal('group1_mean', mu=mu_m, sd=mu_scale)
group2_mean = pm.Normal('group2_mean', mu=mu_m, sd=mu_scale)
group1_std = pm.Uniform('group1_std', lower=sigma_low, upper=sigma_high)
group2_std = pm.Uniform('group2_std', lower=sigma_low, upper=sigma_high)
lambda_1 = group1_std ** (-2); lambda_2 = group2_std ** (-2)
nu = pm.Exponential('nu_minus_one', 1 / 29.) + 1
pm.StudentT(name1, observed=y1, nu=nu, mu=group1_mean, lam=lambda_1)
pm.StudentT(name2, observed=y2, nu=nu, mu=group2_mean, lam=lambda_2)
```
-/
noncomputable def make_model_sorted (name1 : String) (arr1 : NpArr)
    (name2 : String) (arr2 : NpArr) : Except BestError Model :=
  match arr1, arr2 with
  | .oneD y1, .oneD y2 =>
    let y := y1 ++ y2
    let mu_m : ℝ := np_mean y
    let mu_scale : ℝ := np_std y * 1000
    let sigma_low : ℝ := np_std y / 1000
    let sigma_high : ℝ := np_std y * 1000
    .ok [ .free "group1_mean" (.normal mu_m mu_scale),
          .free "group2_mean" (.normal mu_m mu_scale),
          .free "group1_std" (.uniform sigma_low sigma_high),
          .free "group2_std" (.uniform sigma_low sigma_high),
          .free "nu_minus_one" (.exponential (1 / 29)),
          .observed name1 (.add (.var "nu_minus_one") (.const 1))
            (.var "group1_mean") (.pow (.var "group1_std") (-2)) y1,
          .observed name2 (.add (.var "nu_minus_one") (.const 1))
            (.var "group2_mean") (.pow (.var "group2_std") (-2)) y2 ]
  | _, _ => .error .inputShapeError

/-- `make_model(data)` of the source.  The Python dict with its distinct
keys is modelled as an association list; `assert len(data) == 2` is the
two-element pattern match, `name1, name2 = sorted(data.keys())` is the
comparison of the two keys (Lean's `String` order is, like Python's,
lexicographic by code point), and the `ndim` assertions are the `NpArr`
match inside `make_model_sorted`.  All three assertions raise Python
`AssertionError`, the kind the spec names `InputShapeError`. -/
noncomputable def make_model (data : List (String × NpArr)) : Except BestError Model :=
  match data with
  | [(n1, a1), (n2, a2)] =>
    if n1 ≤ n2 then make_model_sorted n1 a1 n2 a2 else make_model_sorted n2 a2 n1 a1
  | _ => .error .inputShapeError

/-! ### Reference definitions written from the claims' wording

Each is a second, independent rendering of what a claim says the code
computes, to be compared with the definitions above (which are
translated from the source). -/

/-- The HDI computation exactly as claim C2 words it: sort the samples
ascending; with `n` the length, `k = ⌊m * n⌋` and `w = n - k`, compute
the width `sorted[i+k] - sorted[i]` for every start index `i < w`; pick
the `i` of minimal width, ties broken by the lowest index (first
occurrence under ascending scan); return `(sorted[i], sorted[i+k])`. -/
def hdi_reference (samples : List ℚ) (m : ℚ) : ℚ × ℚ :=
  let sorted := np_sort samples
  let n := sorted.length
  let k : ℕ := (⌊m * (n : ℚ)⌋).toNat
  let w : ℕ := n - k
  let widths : List ℚ := (List.range w).map (fun i => sorted.getD (i + k) 0 - sorted.getD i 0)
  let istar : ℕ := widths.findIdx (fun q => q == np_min widths)
  (sorted.getD istar 0, sorted.getD (istar + k) 0)

/-- The mode estimator exactly as claim C9 words it: the first grid
point of maximum estimated density among exactly 512 equally spaced
evaluation points spanning
`[min(samples) - 3*bw*bw, max(samples) + 3*bw*bw]`, where `bw` is the
kernel density estimator's automatic bandwidth (covariance) factor and
`density` its evaluation function. -/
def mode_reference (samples : List ℚ) (bw : ℚ) (density : ℚ → ℚ) : ℚ :=
  let grid := np_linspace (np_min samples - 3 * bw * bw) (np_max samples + 3 * bw * bw) 512
  let vals := grid.map density
  grid.getD (vals.findIdx (fun q => q == np_max vals)) 0

/-- The model specification exactly as claim C1 words it, for sorted
group names `name1 ≤ name2` with observed arrays `y1`, `y2`: two group
means with a Normal prior centered at the pooled empirical mean with
standard deviation 1000 times the pooled empirical standard deviation;
two group standard deviations with a Uniform prior on
`[pooled_std/1000, pooled_std*1000]`; one shared `nu_minus_one` latent
with an Exponential prior of rate `1/29` whose realized
degrees-of-freedom is `nu_minus_one + 1`; and two Student-t likelihood
nodes, each parameterized by the shared degrees-of-freedom, its group's
mean and its group's precision `group_i_std ** (-2)`, attached to that
group's observed array unmodified — and no other latents. -/
noncomputable def spec_model (name1 name2 : String) (y1 y2 : List ℚ) : Model :=
  let pooled := y1 ++ y2
  let mu : ℝ := np_mean pooled
  let sigma : ℝ := np_std pooled
  [ .free "group1_mean" (.normal mu (1000 * sigma)),
    .free "group2_mean" (.normal mu (1000 * sigma)),
    .free "group1_std" (.uniform (sigma / 1000) (sigma * 1000)),
    .free "group2_std" (.uniform (sigma / 1000) (sigma * 1000)),
    .free "nu_minus_one" (.exponential (1 / 29)),
    .observed name1 (.add (.var "nu_minus_one") (.const 1))
      (.var "group1_mean") (.pow (.var "group1_std") (-2)) y1,
    .observed name2 (.add (.var "nu_minus_one") (.const 1))
      (.var "group2_mean") (.pow (.var "group2_std") (-2)) y2 ]

/-- The list of candidate window widths over a sorted list `s` for a
window of `k` inner points: entry `i` is `s[i+k] - s[i]`, for the
`s.length - k` start positions (a proof-side name for the `ci_width`
array of `hdi_of_mcmc`). -/
def winW (s : List ℚ) (k : ℕ) : List ℚ :=
  (List.range (s.length - k)).map (fun i => s.getD (i + k) 0 - s.getD i 0)

/-! ### Infrastructure: list minimum, maximum, argmin, argmax -/

lemma foldl_min_le_init (a : ℚ) (l : List ℚ) : l.foldl min a ≤ a := by
  induction l generalizing a with
  | nil => exact le_refl a
  | cons x xs ih => exact le_trans (ih (min a x)) (min_le_left a x)

lemma foldl_min_le_mem {x : ℚ} {l : List ℚ} (a : ℚ) (h : x ∈ l) : l.foldl min a ≤ x := by
  induction l generalizing a with
  | nil => cases h
  | cons y ys ih =>
    rcases List.mem_cons.mp h with rfl | hx
    · exact le_trans (foldl_min_le_init (min a x) ys) (min_le_right a x)
    · exact ih (min a y) hx

lemma foldl_min_mem (a : ℚ) (l : List ℚ) : l.foldl min a ∈ a :: l := by
  induction l generalizing a with
  | nil => exact List.mem_singleton.mpr rfl
  | cons x xs ih =>
    have h := ih (min a x)
    rcases List.mem_cons.mp h with h' | h'
    · rcases min_choice a x with hax | hax
      · exact List.mem_cons.mpr (Or.inl (h'.trans hax))
      · exact List.mem_cons.mpr (Or.inr (List.mem_cons.mpr (Or.inl (h'.trans hax))))
    · exact List.mem_cons.mpr (Or.inr (List.mem_cons.mpr (Or.inr h')))

lemma foldl_min_assoc (a b : ℚ) (l : List ℚ) :
    l.foldl min (min a b) = min a (l.foldl min b) := by
  induction l generalizing b with
  | nil => rfl
  | cons z zs ih =>
    show zs.foldl min (min (min a b) z) = min a (zs.foldl min (min b z))
    rw [min_assoc, ih (min b z)]

lemma np_min_le {x : ℚ} {l : List ℚ} (h : x ∈ l) : np_min l ≤ x := by
  cases l with
  | nil => cases h
  | cons y ys =>
    rcases List.mem_cons.mp h with rfl | hx
    · exact foldl_min_le_init x ys
    · exact foldl_min_le_mem y hx

lemma np_min_mem {l : List ℚ} (h : l ≠ []) : np_min l ∈ l := by
  cases l with
  | nil => exact absurd rfl h
  | cons y ys => exact foldl_min_mem y ys

lemma np_min_cons {x : ℚ} {xs : List ℚ} (h : xs ≠ []) :
    np_min (x :: xs) = min x (np_min xs) := by
  cases xs with
  | nil => exact absurd rfl h
  | cons y ys =>
    show ys.foldl min (min x y) = min x (ys.foldl min y)
    exact foldl_min_assoc x y ys

lemma foldl_max_init_le (a : ℚ) (l : List ℚ) : a ≤ l.foldl max a := by
  induction l generalizing a with
  | nil => exact le_refl a
  | cons x xs ih => exact le_trans (le_max_left a x) (ih (max a x))

lemma foldl_max_mem_le {x : ℚ} {l : List ℚ} (a : ℚ) (h : x ∈ l) : x ≤ l.foldl max a := by
  induction l generalizing a with
  | nil => cases h
  | cons y ys ih =>
    rcases List.mem_cons.mp h with rfl | hx
    · exact le_trans (le_max_right a x) (foldl_max_init_le (max a x) ys)
    · exact ih (max a y) hx

lemma foldl_max_assoc (a b : ℚ) (l : List ℚ) :
    l.foldl max (max a b) = max a (l.foldl max b) := by
  induction l generalizing b with
  | nil => rfl
  | cons z zs ih =>
    show zs.foldl max (max (max a b) z) = max a (zs.foldl max (max b z))
    rw [max_assoc, ih (max b z)]

lemma np_max_le {x : ℚ} {l : List ℚ} (h : x ∈ l) : x ≤ np_max l := by
  cases l with
  | nil => cases h
  | cons y ys =>
    rcases List.mem_cons.mp h with rfl | hx
    · exact foldl_max_init_le x ys
    · exact foldl_max_mem_le y hx

lemma np_max_cons {x : ℚ} {xs : List ℚ} (h : xs ≠ []) :
    np_max (x :: xs) = max x (np_max xs) := by
  cases xs with
  | nil => exact absurd rfl h
  | cons y ys =>
    show ys.foldl max (max x y) = max x (ys.foldl max y)
    exact foldl_max_assoc x y ys

lemma np_argmin_lt_length {l : List ℚ} (h : l ≠ []) : np_argmin l < l.length := by
  induction l with
  | nil => exact absurd rfl h
  | cons x xs ih =>
    cases xs with
    | nil => simp [np_argmin]
    | cons y ys =>
      rw [np_argmin]
      split
      · simp
      · have := ih (by simp)
        simpa [Nat.succ_lt_succ_iff] using this

lemma np_argmin_getD {l : List ℚ} (h : l ≠ []) : l.getD (np_argmin l) 0 = np_min l := by
  induction l with
  | nil => exact absurd rfl h
  | cons x xs ih =>
    cases xs with
    | nil => simp [np_argmin, np_min]
    | cons y ys =>
      rw [np_argmin]
      split
      · next hle =>
        rw [np_min_cons (by simp)]
        simpa using (min_eq_left hle).symm
      · next hlt =>
        rw [np_min_cons (by simp)]
        have hx : np_min (y :: ys) ≤ x := le_of_lt (lt_of_not_le hlt)
        rw [min_eq_right hx]
        simpa using ih (by simp)

lemma np_argmin_eq_findIdx {l : List ℚ} (h : l ≠ []) :
    np_argmin l = l.findIdx (fun q => q == np_min l) := by
  induction l with
  | nil => exact absurd rfl h
  | cons x xs ih =>
    cases xs with
    | nil =>
      show np_argmin [x] = List.findIdx (fun q => q == np_min [x]) [x]
      rw [List.findIdx_cons]
      have : np_min [x] = x := rfl
      simp [np_argmin, this]
    | cons y ys =>
      rw [np_argmin, List.findIdx_cons]
      split
      · next hle =>
        have hmin : np_min (x :: y :: ys) = x := by
          rw [np_min_cons (by simp)]; exact min_eq_left hle
        simp [hmin]
      · next hlt =>
        have hstrict : np_min (y :: ys) < x := lt_of_not_le hlt
        have hmin : np_min (x :: y :: ys) = np_min (y :: ys) := by
          rw [np_min_cons (by simp)]; exact min_eq_right (le_of_lt hstrict)
        have hne : (x == np_min (x :: y :: ys)) = false := by
          rw [hmin]
          exact beq_eq_false_iff_ne.mpr (ne_of_gt hstrict)
        rw [hne]
        simp only [cond_false, hmin]
        rw [ih (by simp)]

lemma np_argmax_eq_findIdx {l : List ℚ} (h : l ≠ []) :
    np_argmax l = l.findIdx (fun q => q == np_max l) := by
  induction l with
  | nil => exact absurd rfl h
  | cons x xs ih =>
    cases xs with
    | nil =>
      show np_argmax [x] = List.findIdx (fun q => q == np_max [x]) [x]
      rw [List.findIdx_cons]
      have : np_max [x] = x := rfl
      simp [np_argmax, this]
    | cons y ys =>
      rw [np_argmax, List.findIdx_cons]
      split
      · next hle =>
        have hmax : np_max (x :: y :: ys) = x := by
          rw [np_max_cons (by simp)]; exact max_eq_left hle
        simp [hmax]
      · next hlt =>
        have hstrict : x < np_max (y :: ys) := lt_of_not_le hlt
        have hmax : np_max (x :: y :: ys) = np_max (y :: ys) := by
          rw [np_max_cons (by simp)]; exact max_eq_right (le_of_lt hstrict)
        have hne : (x == np_max (x :: y :: ys)) = false := by
          rw [hmax]
          exact beq_eq_false_iff_ne.mpr (ne_of_lt hstrict)
        rw [hne]
        simp only [cond_false, hmax]
        rw [ih (by simp)]

/-! ### Infrastructure: the sorted list and the window widths -/

lemma np_sort_length (v : List ℚ) : (np_sort v).length = v.length :=
  List.length_insertionSort _ _

lemma np_sort_perm (v : List ℚ) : (np_sort v).Perm v :=
  List.perm_insertionSort _ _

lemma np_sort_sorted (v : List ℚ) : (np_sort v).Sorted (· ≤ ·) :=
  List.sorted_insertionSort _ _

lemma sorted_getD_mono {l : List ℚ} (hs : l.Sorted (· ≤ ·)) {i j : ℕ}
    (hij : i ≤ j) (hj : j < l.length) : l.getD i 0 ≤ l.getD j 0 := by
  rcases eq_or_lt_of_le hij with rfl | hlt
  · exact le_refl _
  · have hi : i < l.length := lt_of_le_of_lt hij hj
    rw [List.getD_eq_getElem l 0 hi, List.getD_eq_getElem l 0 hj]
    have := hs.rel_get_of_lt (a := ⟨i, hi⟩) (b := ⟨j, hj⟩) hlt
    simpa using this

lemma winW_length (s : List ℚ) (k : ℕ) : (winW s k).length = s.length - k := by
  simp [winW]

lemma winW_ne_nil {s : List ℚ} {k : ℕ} (hk : k < s.length) : winW s k ≠ [] := by
  have : (winW s k).length ≠ 0 := by rw [winW_length]; omega
  exact fun hnil => this (by rw [hnil]; rfl)

lemma winW_getD {s : List ℚ} {k j : ℕ} (hj : j < s.length - k) :
    (winW s k).getD j 0 = s.getD (j + k) 0 - s.getD j 0 := by
  have hj' : j < (winW s k).length := by rw [winW_length]; exact hj
  rw [List.getD_eq_getElem _ 0 hj']
  simp [winW]

lemma winW_mem {s : List ℚ} {k : ℕ} {x : ℚ} (hx : x ∈ winW s k) :
    ∃ j, j < s.length - k ∧ x = s.getD (j + k) 0 - s.getD j 0 := by
  rcases List.mem_map.mp hx with ⟨j, hj, rfl⟩
  exact ⟨j, List.mem_range.mp hj, rfl⟩

lemma winW_min_mono {s : List ℚ} (hs : s.Sorted (· ≤ ·)) {k₁ k₂ : ℕ}
    (h12 : k₁ ≤ k₂) (h2 : k₂ < s.length) :
    np_min (winW s k₁) ≤ np_min (winW s k₂) := by
  have h1 : k₁ < s.length := lt_of_le_of_lt h12 h2
  rcases winW_mem (np_min_mem (winW_ne_nil h2)) with ⟨j, hj, hval⟩
  have hj1 : j < s.length - k₁ := by omega
  have hmem : s.getD (j + k₁) 0 - s.getD j 0 ∈ winW s k₁ := by
    rw [← winW_getD hj1]
    have hj1' : j < (winW s k₁).length := by rw [winW_length]; exact hj1
    rw [List.getD_eq_getElem _ 0 hj1']
    exact List.getElem_mem hj1'
  have hstep : s.getD (j + k₁) 0 ≤ s.getD (j + k₂) 0 :=
    sorted_getD_mono hs (by omega) (by omega)
  calc np_min (winW s k₁) ≤ s.getD (j + k₁) 0 - s.getD j 0 := np_min_le hmem
    _ ≤ s.getD (j + k₂) 0 - s.getD j 0 := by linarith
    _ = np_min (winW s k₂) := hval.symm

/-! ### Infrastructure: unfolding `hdi_of_mcmc` on the non-error path -/

lemma floor_toNat_lt {v : List ℚ} {m : ℚ} (hv : v ≠ []) (h1 : m < 1) :
    (⌊m * (v.length : ℚ)⌋).toNat < v.length := by
  have hn : 0 < v.length := List.length_pos.mpr hv
  have hcast : (0 : ℚ) < (v.length : ℚ) := by exact_mod_cast hn
  have hmul : m * (v.length : ℚ) < (v.length : ℚ) :=
    (mul_lt_iff_lt_one_left hcast).mpr h1
  have hfl : ⌊m * (v.length : ℚ)⌋ < (v.length : ℤ) :=
    Int.floor_lt.mpr (by exact_mod_cast hmul)
  omega

lemma hdi_of_mcmc_eq {v : List ℚ} {m : ℚ} (hv : v ≠ [])
    (hk : (⌊m * (v.length : ℚ)⌋).toNat < v.length) :
    hdi_of_mcmc v m = Except.ok
      ((np_sort v).getD (np_argmin (winW (np_sort v) (⌊m * (v.length : ℚ)⌋).toNat)) 0,
       (np_sort v).getD (np_argmin (winW (np_sort v) (⌊m * (v.length : ℚ)⌋).toNat)
         + (⌊m * (v.length : ℚ)⌋).toNat) 0) := by
  have hv' : v.length ≠ 0 := fun h => hv (List.length_eq_zero.mp h)
  unfold hdi_of_mcmc
  rw [if_neg hv']
  simp only [np_sort_length, winW]
  rw [if_neg (by omega)]

lemma np_linspace_length (a b : ℚ) (n : ℕ) : (np_linspace a b n).length = n := by
  unfold np_linspace
  rw [List.length_map]
  exact List.length_range n

lemma le_countP_of_window (l : List ℚ) (p : ℚ → Bool) (a b : ℕ)
    (hb : b < l.length)
    (hp : ∀ i, a ≤ i → i ≤ b → p (l.getD i 0) = true) :
    b + 1 - a ≤ l.countP p := by
  have hsplit := List.take_append_drop a l
  have hcount : l.countP p = (l.take a).countP p + (l.drop a).countP p := by
    conv_lhs => rw [← hsplit]
    exact List.countP_append _ _ _
  have hsplit2 := List.take_append_drop (b + 1 - a) (l.drop a)
  have hcount2 : (l.drop a).countP p
      = ((l.drop a).take (b + 1 - a)).countP p + ((l.drop a).drop (b + 1 - a)).countP p := by
    conv_lhs => rw [← hsplit2]
    exact List.countP_append _ _ _
  have hmidlen : ((l.drop a).take (b + 1 - a)).length = min (b + 1 - a) (l.length - a) := by
    simp [List.length_take, List.length_drop]
  have hmid : ((l.drop a).take (b + 1 - a)).countP p = ((l.drop a).take (b + 1 - a)).length := by
    apply List.countP_eq_length.mpr
    intro x hx
    rcases List.getElem_of_mem hx with ⟨idx, hidx, rfl⟩
    have hidx2 : idx < (l.drop a).length := by
      rw [List.length_drop]
      rw [hmidlen] at hidx
      omega
    rw [List.getElem_take]
    rw [List.getElem_drop]
    have hidxb : a + idx ≤ b := by
      rw [hmidlen] at hidx
      omega
    have hlen : a + idx < l.length := by omega
    rw [← List.getD_eq_getElem l 0 hlen]
    exact hp (a + idx) (Nat.le_add_right a idx) hidxb
  omega

lemma hdi_width_eq {v : List ℚ} {m lo hi : ℚ} (hv : v ≠ [])
    (hk : (⌊m * (v.length : ℚ)⌋).toNat < v.length)
    (h : hdi_of_mcmc v m = Except.ok (lo, hi)) :
    hi - lo = np_min (winW (np_sort v) (⌊m * (v.length : ℚ)⌋).toNat) := by
  rw [hdi_of_mcmc_eq hv hk] at h
  have hpair := Except.ok.inj h
  rw [Prod.mk.injEq] at hpair
  obtain ⟨hlo, hhi⟩ := hpair
  subst hlo hhi
  have hslen : (np_sort v).length = v.length := np_sort_length v
  have hwne : winW (np_sort v) (⌊m * (v.length : ℚ)⌋).toNat ≠ [] :=
    winW_ne_nil (by omega)
  have hargmin : np_argmin (winW (np_sort v) (⌊m * (v.length : ℚ)⌋).toNat)
      < (np_sort v).length - (⌊m * (v.length : ℚ)⌋).toNat := by
    have := np_argmin_lt_length hwne
    rwa [winW_length] at this
  rw [← winW_getD hargmin]
  exact np_argmin_getD hwne

/-! ### The claims -/

/-- Claim C1: for every dataset of exactly two groups of one-dimensional
numeric observations, `make_model` emits exactly the specification the
claim lists — two Normal group means centered at the pooled mean with
standard deviation 1000 times the pooled standard deviation, two Uniform
group standard deviations on `[pooled_std/1000, pooled_std*1000]`, one
shared `nu_minus_one` with Exponential prior of rate `1/29` realized as
`nu_minus_one + 1`, two precision transforms `group_i_std ** (-2)`, and
two Student-t likelihood nodes attached to the unmodified observed
arrays — with the group of the lexicographically smaller name as group 1,
and no other latents. -/
theorem make_model_spec (a b : String) (ya yb : List ℚ) :
    make_model [(a, NpArr.oneD ya), (b, NpArr.oneD yb)] =
      Except.ok (if a ≤ b then spec_model a b ya yb else spec_model b a yb ya) := by
  by_cases hab : a ≤ b
  · rw [if_pos hab]
    simp only [make_model, make_model_sorted, spec_model, if_pos hab]
    simp [mul_comm]
  · rw [if_neg hab]
    simp only [make_model, make_model_sorted, spec_model, if_neg hab]
    simp [mul_comm]

/-- Claim C2: for every non-empty sample list and credible mass in
`(0,1)`, `hdi_of_mcmc` returns exactly the result of the reference
algorithm `hdi_reference` (sort ascending, `k = ⌊m*n⌋` window, minimal
width, ties to the lowest start index, return
`(sorted[i*], sorted[i*+k])`). -/
theorem hdi_of_mcmc_matches_reference (v : List ℚ) (m : ℚ) (hv : v ≠ [])
    (_h0 : 0 < m) (h1 : m < 1) :
    hdi_of_mcmc v m = Except.ok (hdi_reference v m) := by
  have hk := floor_toNat_lt hv h1
  have hw : winW (np_sort v) (⌊m * (v.length : ℚ)⌋).toNat ≠ [] :=
    winW_ne_nil (by rw [np_sort_length]; exact hk)
  rw [hdi_of_mcmc_eq hv hk, np_argmin_eq_findIdx hw]
  unfold hdi_reference
  simp only [winW, np_sort_length]

/-- Witness for C2 at the concrete input `[1, 2, 3]` with credible mass
`1/2`. -/
theorem hdi_of_mcmc_matches_reference_witness :
    (([1, 2, 3] : List ℚ) ≠ [] ∧ (0 : ℚ) < 1/2 ∧ (1/2 : ℚ) < 1) ∧
    hdi_of_mcmc [1, 2, 3] (1/2) = Except.ok (hdi_reference [1, 2, 3] (1/2)) :=
  ⟨⟨by decide, by norm_num, by norm_num⟩,
    hdi_of_mcmc_matches_reference [1, 2, 3] (1/2) (by decide) (by norm_num) (by norm_num)⟩

/-- Claim C3 (code bug): the source has no `DegenerateDataError` guard.
On the constant dataset `{"a": [5, 5], "b": [5, 5]}` (pooled standard
deviation zero) `make_model` succeeds and returns the specification with
the collapsed `Uniform(0, 0)` scale-prior bounds, instead of failing as
the spec requires. -/
theorem make_model_constant_data_ok :
    make_model [("a", NpArr.oneD [5, 5]), ("b", NpArr.oneD [5, 5])] =
      Except.ok
        [ .free "group1_mean" (.normal 5 0),
          .free "group2_mean" (.normal 5 0),
          .free "group1_std" (.uniform 0 0),
          .free "group2_std" (.uniform 0 0),
          .free "nu_minus_one" (.exponential (1 / 29)),
          .observed "a" (.add (.var "nu_minus_one") (.const 1)) (.var "group1_mean")
            (.pow (.var "group1_std") (-2)) [5, 5],
          .observed "b" (.add (.var "nu_minus_one") (.const 1)) (.var "group2_mean")
            (.pow (.var "group2_std") (-2)) [5, 5] ] := by
  simp only [make_model]
  rw [if_pos (show ("a" : String) ≤ "b" by with_unfolding_all decide)]
  simp only [make_model_sorted]
  have hmean : np_mean ([5, 5, 5, 5] : List ℚ) = 5 := by with_unfolding_all rfl
  have hvar : np_var ([5, 5, 5, 5] : List ℚ) = 0 := by with_unfolding_all rfl
  have hstd : np_std ([5, 5, 5, 5] : List ℚ) = 0 := by
    unfold np_std
    rw [hvar]
    norm_num
  simp [hmean, hstd]

/-- Claim C4: for every non-empty sample list and credible mass in
`(0,1)`, the returned interval satisfies `hdi_min ≤ hdi_max`, and at
least `⌊m * n⌋` of the input samples lie in the closed interval
`[hdi_min, hdi_max]`. -/
theorem hdi_invariant (v : List ℚ) (m lo hi : ℚ) (hv : v ≠ []) (_h0 : 0 < m) (h1 : m < 1)
    (h : hdi_of_mcmc v m = Except.ok (lo, hi)) :
    lo ≤ hi ∧
      (⌊m * (v.length : ℚ)⌋).toNat ≤ List.countP (fun x => decide (lo ≤ x ∧ x ≤ hi)) v := by
  have hk := floor_toNat_lt hv h1
  rw [hdi_of_mcmc_eq hv hk] at h
  have hpair := Except.ok.inj h
  rw [Prod.mk.injEq] at hpair
  obtain ⟨hlo, hhi⟩ := hpair
  subst hlo hhi
  have hs : (np_sort v).Sorted (· ≤ ·) := np_sort_sorted v
  have hslen : (np_sort v).length = v.length := np_sort_length v
  have hwne : winW (np_sort v) (⌊m * (v.length : ℚ)⌋).toNat ≠ [] :=
    winW_ne_nil (by omega)
  have hargmin : np_argmin (winW (np_sort v) (⌊m * (v.length : ℚ)⌋).toNat)
      < v.length - (⌊m * (v.length : ℚ)⌋).toNat := by
    have := np_argmin_lt_length hwne
    rwa [winW_length, hslen] at this
  constructor
  · exact sorted_getD_mono hs (Nat.le_add_right _ _) (by omega)
  · set p : ℚ → Bool := fun x => decide
      ((np_sort v).getD (np_argmin (winW (np_sort v) (⌊m * (v.length : ℚ)⌋).toNat)) 0 ≤ x ∧
        x ≤ (np_sort v).getD (np_argmin (winW (np_sort v) (⌊m * (v.length : ℚ)⌋).toNat)
          + (⌊m * (v.length : ℚ)⌋).toNat) 0) with hp
    have hcnt : List.countP p (np_sort v) = List.countP p v :=
      List.Perm.countP_eq p (np_sort_perm v)
    have hwin := le_countP_of_window (np_sort v) p
      (np_argmin (winW (np_sort v) (⌊m * (v.length : ℚ)⌋).toNat))
      (np_argmin (winW (np_sort v) (⌊m * (v.length : ℚ)⌋).toNat)
        + (⌊m * (v.length : ℚ)⌋).toNat)
      (by omega)
      (by
        intro i hi1 hi2
        rw [hp]
        rw [decide_eq_true_eq]
        exact ⟨sorted_getD_mono hs hi1 (by omega), sorted_getD_mono hs hi2 (by omega)⟩)
    omega

/-- Witness for C4 at the concrete input `[1, 2, 3]` with credible mass
`1/2`, whose HDI is `(1, 2)`. -/
theorem hdi_invariant_witness :
    (([1, 2, 3] : List ℚ) ≠ [] ∧ (0 : ℚ) < 1/2 ∧ (1/2 : ℚ) < 1 ∧
      hdi_of_mcmc [1, 2, 3] (1/2) = Except.ok (1, 2)) ∧
    ((1 : ℚ) ≤ 2 ∧
      (⌊(1/2 : ℚ) * (([1, 2, 3] : List ℚ).length : ℚ)⌋).toNat ≤
        List.countP (fun x => decide ((1 : ℚ) ≤ x ∧ x ≤ 2)) [1, 2, 3]) :=
  ⟨⟨by decide, by norm_num, by norm_num, by with_unfolding_all rfl⟩,
    hdi_invariant [1, 2, 3] (1/2) 1 2 (by decide) (by norm_num) (by norm_num)
      (by with_unfolding_all rfl)⟩

/-- Claim C5 (code bug): `summarize([7.0])` does not succeed.
`scipy.stats.gaussian_kde` fails on a single-point sample (its data
covariance is undefined), so `calculate_sample_statistics` raises for
every kernel-density oracle; the HDI and mean parts of the claim do hold
(`hdi_of_mcmc([7.0])` yields `(7, 7)` and the mean is `7`). -/
theorem summarize_single_point (oracle : KDEOracle) :
    calculate_sample_statistics oracle [7] = Except.error BestError.linAlgError ∧
    hdi_of_mcmc [7] (95 / 100) = Except.ok (7, 7) ∧ np_mean [7] = 7 := by
  refine ⟨?_, by with_unfolding_all rfl, by norm_num [np_mean]⟩
  with_unfolding_all rfl

/-- Claim C6: for a fixed non-empty sample list, increasing the credible
mass within `(0,1)` never decreases the width `hdi_max - hdi_min` of the
interval `hdi_of_mcmc` returns. -/
theorem hdi_width_monotone (v : List ℚ) (m₁ m₂ lo₁ hi₁ lo₂ hi₂ : ℚ) (hv : v ≠ [])
    (_h0 : 0 < m₁) (h12 : m₁ ≤ m₂) (h1 : m₂ < 1)
    (e₁ : hdi_of_mcmc v m₁ = Except.ok (lo₁, hi₁))
    (e₂ : hdi_of_mcmc v m₂ = Except.ok (lo₂, hi₂)) :
    hi₁ - lo₁ ≤ hi₂ - lo₂ := by
  have hk₂ := floor_toNat_lt hv h1
  have hk₁ := floor_toNat_lt hv (lt_of_le_of_lt h12 h1)
  rw [hdi_width_eq hv hk₁ e₁, hdi_width_eq hv hk₂ e₂]
  apply winW_min_mono (np_sort_sorted v)
  · exact Int.toNat_le_toNat (Int.floor_le_floor
      (mul_le_mul_of_nonneg_right h12 (by positivity)))
  · rw [np_sort_length]; exact hk₂

/-- Witness for C6 on `[1, 2, 3]` with masses `1/3 ≤ 2/3`: the HDIs are
`(1, 2)` and `(1, 3)`, of widths `1 ≤ 2`. -/
theorem hdi_width_monotone_witness :
    (([1, 2, 3] : List ℚ) ≠ [] ∧ (0 : ℚ) < 1/3 ∧ (1/3 : ℚ) ≤ 2/3 ∧ (2/3 : ℚ) < 1 ∧
      hdi_of_mcmc [1, 2, 3] (1/3) = Except.ok (1, 2) ∧
      hdi_of_mcmc [1, 2, 3] (2/3) = Except.ok (1, 3)) ∧
    (2 : ℚ) - 1 ≤ 3 - 1 :=
  ⟨⟨by decide, by norm_num, by norm_num, by norm_num,
      by with_unfolding_all rfl, by with_unfolding_all rfl⟩,
    hdi_width_monotone [1, 2, 3] (1/3) (2/3) 1 2 1 3 (by decide) (by norm_num)
      (by norm_num) (by norm_num) (by with_unfolding_all rfl) (by with_unfolding_all rfl)⟩

/-- Claim C7: summarization of an empty sample list fails with the error
the spec names `EmptySampleError` (the `assert len(sample_vec)` guard of
`hdi_of_mcmc`, reached before anything else is computed). -/
theorem summarize_empty_fails (oracle : KDEOracle) :
    calculate_sample_statistics oracle [] = Except.error BestError.emptySampleError := rfl

/-- Claim C8, amended: `make_model` fails (with the single assertion
error kind the spec names `InputShapeError`) exactly when the dataset
does not contain two entries or some group's value is not
one-dimensional; an empty one-dimensional group is not rejected. -/
theorem make_model_error_iff (data : List (String × NpArr)) :
    make_model data = Except.error BestError.inputShapeError ↔
      (data.length ≠ 2 ∨ ∃ p ∈ data, p.2 = NpArr.notOneD) := by
  match data with
  | [] => simp [make_model]
  | [p] => simp [make_model]
  | [(n1, a1), (n2, a2)] =>
    cases a1 <;> cases a2 <;> by_cases h : n1 ≤ n2 <;>
      simp [make_model, make_model_sorted, h]
  | p :: q :: r :: rest =>
    constructor
    · intro _
      left
      simp
    · intro _
      rfl

/-- Counterexample to C8 as stated: a dataset whose first group is the
empty one-dimensional array is accepted by `make_model`, although the
claim says it must fail. -/
theorem make_model_empty_group_ok :
    (make_model [("a", NpArr.oneD []), ("b", NpArr.oneD [1])]).isOk = true := by
  with_unfolding_all rfl

/-- Claim C9: whenever summarization succeeds, the mode it returns is
the first grid point of maximum estimated kernel density among exactly
512 equally spaced evaluation points spanning
`[min(samples) - 3*bw*bw, max(samples) + 3*bw*bw]`, where `bw` is the
kernel density estimator's automatic bandwidth (covariance) factor. -/
theorem mode_matches_reference (oracle : KDEOracle) (s : List ℚ) (st : SampleStatistics)
    (h : calculate_sample_statistics oracle s = Except.ok st) :
    st.mode = mode_reference s (oracle s).covariance_factor (oracle s).evaluate := by
  unfold calculate_sample_statistics at h
  cases e1 : hdi_of_mcmc s (95 / 100) with
  | error err => rw [e1] at h; exact absurd h (by simp)
  | ok pr =>
    rw [e1] at h
    obtain ⟨lo, hi⟩ := pr
    cases e2 : gaussian_kde oracle s with
    | error err => rw [e2] at h; exact absurd h (by simp)
    | ok kfit =>
      rw [e2] at h
      unfold gaussian_kde at e2
      split at e2
      · exact absurd e2 (by simp)
      · have hk := Except.ok.inj e2
        subst hk
        have hst := (Except.ok.inj h).symm
        subst hst
        have hgrid : (np_linspace (np_min s - 3 * (oracle s).covariance_factor
            * (oracle s).covariance_factor) (np_max s + 3 * (oracle s).covariance_factor
            * (oracle s).covariance_factor) 512).map (oracle s).evaluate ≠ [] := by
          intro hnil
          have hlen := congrArg List.length hnil
          rw [List.length_map, np_linspace_length] at hlen
          simp at hlen
        show (np_linspace _ _ 512).getD (np_argmax _) 0 = mode_reference s _ _
        unfold mode_reference
        rw [np_argmax_eq_findIdx hgrid]

/-- Witness for C9 with the concrete constant-zero density oracle on the
concrete input `[0, 1]`: summarization succeeds there, and the returned
mode matches the reference. -/
theorem mode_matches_reference_witness :
    ∃ st, calculate_sample_statistics constKDE [0, 1] = Except.ok st ∧
      st.mode = mode_reference [0, 1] (constKDE [0, 1]).covariance_factor
        (constKDE [0, 1]).evaluate := by
  have hok : (calculate_sample_statistics constKDE [0, 1]).isOk = true := by
    with_unfolding_all rfl
  cases hcalc : calculate_sample_statistics constKDE [0, 1] with
  | error e =>
    rw [hcalc] at hok
    simp [Except.isOk, Except.toBool] at hok
  | ok st => exact ⟨st, rfl, mode_matches_reference constKDE [0, 1] st hcalc⟩

/-- Claim C10: for every non-empty sample list of length `n` and
credible mass `m` strictly between 0 and 1, every index used inside
`hdi_of_mcmc` is in bounds: `⌊m * n⌋ ≤ n - 1`; the width array
(`ci_width`, the file's `winW (np_sort v) ⌊m * n⌋`) has at least one
entry, so the argmin over it is defined (in range of the array); the
final access `sorted[min_idx + ⌊m * n⌋]` satisfies
`min_idx + ⌊m * n⌋ ≤ n - 1`; and hence the function returns a pair
rather than reaching any error path. -/
theorem hdi_total (v : List ℚ) (m : ℚ) (hv : v ≠ []) (_h0 : 0 < m) (h1 : m < 1) :
    (⌊m * (v.length : ℚ)⌋).toNat ≤ v.length - 1 ∧
    (winW (np_sort v) (⌊m * (v.length : ℚ)⌋).toNat).length ≠ 0 ∧
    np_argmin (winW (np_sort v) (⌊m * (v.length : ℚ)⌋).toNat) <
      (winW (np_sort v) (⌊m * (v.length : ℚ)⌋).toNat).length ∧
    np_argmin (winW (np_sort v) (⌊m * (v.length : ℚ)⌋).toNat) +
      (⌊m * (v.length : ℚ)⌋).toNat ≤ v.length - 1 ∧
    ∃ p, hdi_of_mcmc v m = Except.ok p := by
  have hn : 0 < v.length := List.length_pos.mpr hv
  have hk := floor_toNat_lt hv h1
  have hwlen : (winW (np_sort v) (⌊m * (v.length : ℚ)⌋).toNat).length
      = v.length - (⌊m * (v.length : ℚ)⌋).toNat := by
    rw [winW_length, np_sort_length]
  have hwne : winW (np_sort v) (⌊m * (v.length : ℚ)⌋).toNat ≠ [] :=
    winW_ne_nil (by rw [np_sort_length]; exact hk)
  have harg := np_argmin_lt_length hwne
  exact ⟨by omega, by omega, harg, by omega, ⟨_, hdi_of_mcmc_eq hv hk⟩⟩

/-- Witness for C10 at the concrete input `[1, 2, 3]` with credible mass
`1/2` (there `⌊m * n⌋ = 1`, the width array has two entries, the argmin
is `0`, and `0 + 1 ≤ 2`). -/
theorem hdi_total_witness :
    (([1, 2, 3] : List ℚ) ≠ [] ∧ (0 : ℚ) < 1/2 ∧ (1/2 : ℚ) < 1) ∧
    ((⌊(1/2 : ℚ) * (([1, 2, 3] : List ℚ).length : ℚ)⌋).toNat ≤
        ([1, 2, 3] : List ℚ).length - 1 ∧
      (winW (np_sort [1, 2, 3])
          (⌊(1/2 : ℚ) * (([1, 2, 3] : List ℚ).length : ℚ)⌋).toNat).length ≠ 0 ∧
      np_argmin (winW (np_sort [1, 2, 3])
          (⌊(1/2 : ℚ) * (([1, 2, 3] : List ℚ).length : ℚ)⌋).toNat) <
        (winW (np_sort [1, 2, 3])
          (⌊(1/2 : ℚ) * (([1, 2, 3] : List ℚ).length : ℚ)⌋).toNat).length ∧
      np_argmin (winW (np_sort [1, 2, 3])
          (⌊(1/2 : ℚ) * (([1, 2, 3] : List ℚ).length : ℚ)⌋).toNat) +
        (⌊(1/2 : ℚ) * (([1, 2, 3] : List ℚ).length : ℚ)⌋).toNat ≤
        ([1, 2, 3] : List ℚ).length - 1 ∧
      ∃ p, hdi_of_mcmc [1, 2, 3] (1/2) = Except.ok p) :=
  ⟨⟨by decide, by norm_num, by norm_num⟩,
    hdi_total [1, 2, 3] (1/2) (by decide) (by norm_num) (by norm_num)⟩

end Best
